import Mathlib

/-!
Verification of the score/MIDI codec of mcp-midi (src/python/magenta_wrapper.py).

The wrapper's own code builds a NoteSequence protobuf from a JSON-style
dictionary (with optional keys, Python dict.get defaults) and shapes a parsed
NoteSequence back into a dictionary.  We embed that code directly: optional
dictionary keys become Option fields, Python floats become exact rationals,
Python ints become integers.  The binary SMF encode/decode itself lives in the
external note_seq library (not under src/); where a claim depends on it, the
relevant algorithm is modelled from the specification (tick/seconds piecewise
conversion, tempo scan), with a doc comment saying so.
-/

/-- A note as it appears in the JSON wire dictionary consumed by
note_sequence_to_midi: every field is an optional key, read with dict.get. -/
structure NoteIn where
  pitch : Option Int
  startTime : Option Rat
  endTime : Option Rat
  velocity : Option Int
  instrument : Option Int
  program : Option Int
  isDrum : Option Bool
deriving Repr, DecidableEq

/-- A tempo entry of the wire dictionary: optional time and qpm keys. -/
structure TempoIn where
  time : Option Rat
  qpm : Option Rat
deriving Repr, DecidableEq

/-- A time-signature entry of the wire dictionary. -/
structure TimeSigIn where
  time : Option Rat
  numerator : Option Int
  denominator : Option Int
deriving Repr, DecidableEq

/-- The wire dictionary passed to note_sequence_to_midi.  The notes key is
read with dict.get with default [], so it is a plain list; the tempos,
timeSignatures and totalTime keys are tested with the in operator, so their
presence or absence is observable and they are Option. -/
structure ScoreIn where
  notes : List NoteIn
  tempos : Option (List TempoIn)
  timeSignatures : Option (List TimeSigIn)
  totalTime : Option Rat
deriving Repr, DecidableEq

/-- A fully specified note of the NoteSequence protobuf built by
note_sequence_to_midi (every protobuf field has a value). -/
structure SeqNote where
  pitch : Int
  start_time : Rat
  end_time : Rat
  velocity : Int
  instrument : Int
  program : Int
  is_drum : Bool
deriving Repr, DecidableEq

/-- A fully specified tempo of the NoteSequence protobuf. -/
structure SeqTempo where
  time : Rat
  qpm : Rat
deriving Repr, DecidableEq

/-- A fully specified time signature of the NoteSequence protobuf. -/
structure SeqTimeSig where
  time : Rat
  numerator : Int
  denominator : Int
deriving Repr, DecidableEq

/-- The NoteSequence protobuf: the in-memory Score built by the encoder and
returned by the library decoder. -/
structure NoteSeq where
  notes : List SeqNote
  tempos : List SeqTempo
  time_signatures : List SeqTimeSig
  total_time : Rat
deriving Repr, DecidableEq

/-- Lines 38-46 of magenta_wrapper.py: one iteration of the note loop.
pitch defaults to 60, startTime to 0, endTime to the already-assigned
start_time + 0.5, velocity to 80, instrument and program to 0, isDrum to
false. -/
def fillNote (n : NoteIn) : SeqNote :=
  let st := n.startTime.getD 0
  { pitch := n.pitch.getD 60
    start_time := st
    end_time := n.endTime.getD (st + 1/2)
    velocity := n.velocity.getD 80
    instrument := n.instrument.getD 0
    program := n.program.getD 0
    is_drum := n.isDrum.getD false }

/-- Lines 49-58 of magenta_wrapper.py: if the tempos key is present, copy its
entries (each field via dict.get with defaults 0 and 120.0); only when the key
is absent is the single default tempo added. -/
def buildTempos : Option (List TempoIn) → List SeqTempo
  | some l => l.map (fun t => ⟨t.time.getD 0, t.qpm.getD 120⟩)
  | none => [⟨0, 120⟩]

/-- Lines 61-72 of magenta_wrapper.py: if the timeSignatures key is present,
copy its entries (defaults 0, 4, 4); only when the key is absent is the single
default 4/4 signature added. -/
def buildTimeSigs : Option (List TimeSigIn) → List SeqTimeSig
  | some l => l.map (fun t => ⟨t.time.getD 0, t.numerator.getD 4, t.denominator.getD 4⟩)
  | none => [⟨0, 4, 4⟩]

/-- Lines 74-80 of magenta_wrapper.py: total_time is the provided totalTime
when the key is present, else the maximum end_time of the built notes when
there are any, else 0.  Python max over the nonempty list is folded from its
head. -/
def buildTotalTime (tt : Option Rat) (notes : List SeqNote) : Rat :=
  match tt with
  | some t => t
  | none =>
    match notes with
    | [] => 0
    | n :: rest => (rest.map SeqNote.end_time).foldl max n.end_time

/-- Lines 33-80 of magenta_wrapper.py: the defaulting step of
note_sequence_to_midi, building the NoteSequence protobuf from the wire
dictionary before it is handed to the library MIDI writer. -/
def fillDefaults (s : ScoreIn) : NoteSeq :=
  let notes := s.notes.map fillNote
  { notes := notes
    tempos := buildTempos s.tempos
    time_signatures := buildTimeSigs s.timeSignatures
    total_time := buildTotalTime s.totalTime notes }

/-- Reading a fully specified protobuf back as a wire dictionary: every key is
present (protobuf fields always read a value). -/
def SeqNote.toInput (n : SeqNote) : NoteIn :=
  ⟨some n.pitch, some n.start_time, some n.end_time, some n.velocity,
   some n.instrument, some n.program, some n.is_drum⟩

/-- Tempo protobuf read back as a dictionary entry. -/
def SeqTempo.toInput (t : SeqTempo) : TempoIn := ⟨some t.time, some t.qpm⟩

/-- Time-signature protobuf read back as a dictionary entry. -/
def SeqTimeSig.toInput (t : SeqTimeSig) : TimeSigIn :=
  ⟨some t.time, some t.numerator, some t.denominator⟩

/-- NoteSequence protobuf read back as a wire dictionary with every key
present. -/
def NoteSeq.toInput (s : NoteSeq) : ScoreIn :=
  ⟨s.notes.map SeqNote.toInput, some (s.tempos.map SeqTempo.toInput),
   some (s.time_signatures.map SeqTimeSig.toInput), some s.total_time⟩

/-- A note of the wire dictionary produced by midi_to_note_sequence
(lines 116-127).  The isDrum key is written only inside the
if note.is_drum branch, so it is an Option; the other keys are written
unconditionally. -/
structure NoteDict where
  pitch : Int
  startTime : Rat
  endTime : Rat
  velocity : Int
  instrument : Int
  program : Int
  isDrum : Option Bool
deriving Repr, DecidableEq

/-- A tempo entry of the output dictionary (lines 130-134). -/
structure TempoDict where
  time : Rat
  qpm : Rat
deriving Repr, DecidableEq

/-- A time-signature entry of the output dictionary (lines 137-142). -/
structure TimeSigDict where
  time : Rat
  numerator : Int
  denominator : Int
deriving Repr, DecidableEq

/-- The output dictionary of midi_to_note_sequence. -/
structure ScoreDict where
  notes : List NoteDict
  tempos : List TempoDict
  timeSignatures : List TimeSigDict
  totalTime : Rat
deriving Repr, DecidableEq

/-- Lines 116-127 of magenta_wrapper.py: one note shaped into its dictionary;
isDrum is set only when note.is_drum is true, otherwise the key is absent. -/
def noteToDict (n : SeqNote) : NoteDict :=
  { pitch := n.pitch
    startTime := n.start_time
    endTime := n.end_time
    velocity := n.velocity
    instrument := n.instrument
    program := n.program
    isDrum := if n.is_drum then some true else none }

/-- Lines 105-143 of magenta_wrapper.py: the successfully parsed NoteSequence
shaped into the output dictionary, every note, tempo and time signature of the
sequence copied in order. -/
def shapeSequence (seq : NoteSeq) : ScoreDict :=
  { notes := seq.notes.map noteToDict
    tempos := seq.tempos.map (fun t => ⟨t.time, t.qpm⟩)
    timeSignatures := seq.time_signatures.map (fun t => ⟨t.time, t.numerator, t.denominator⟩)
    totalTime := seq.total_time }

/-- Lines 93-147 of magenta_wrapper.py: midi_to_note_sequence.  The call into
the library parser (note_seq.midi_file_to_note_sequence) is the only fallible
step; an input of none models the library raising on a malformed file, which
the except branch turns into a None return.  On a successful parse the whole
dictionary is built and returned. -/
def midi_to_note_sequence : Option NoteSeq → Option ScoreDict
  | none => none
  | some seq => some (shapeSequence seq)

/-- Modelled from the spec: the SMF tick/seconds machinery lives in the
note_seq library, which is not under src/.  Section 4.2 describes the tempo
map as a piecewise-linear relation between tick positions and absolute
seconds; one segment covers len ticks under a constant tempo whose
seconds-per-tick is spt = 60 / (qpm * ticks_per_quarter). -/
structure TempoSeg where
  len : Nat
  spt : Rat
deriving Repr, DecidableEq

/-- Modelled from the spec: tick position to absolute seconds, the
piecewise-linear integral of section 4.2, summed segment by segment; the last
tempo lastSpt stays in effect for the rest of the file. -/
def ticksToSeconds : List TempoSeg → Rat → Int → Rat
  | [], lastSpt, n => lastSpt * n
  | g :: rest, lastSpt, n =>
    if n ≤ (g.len : Int) then g.spt * n
    else g.spt * g.len + ticksToSeconds rest lastSpt (n - g.len)

/-- Modelled from the spec: absolute seconds back to a real-valued tick
position, the same breakpoint list run forward (section 4.3 step 2). -/
def secondsToTicksQ : List TempoSeg → Rat → Rat → Rat
  | [], lastSpt, t => t / lastSpt
  | g :: rest, lastSpt, t =>
    if t ≤ g.spt * g.len then t / g.spt
    else g.len + secondsToTicksQ rest lastSpt (t - g.spt * g.len)

/-- Modelled from the spec: the encoder quantizes the real-valued tick
position of an event time to a whole tick. -/
def secondsToTicks (segs : List TempoSeg) (lastSpt t : Rat) : Int :=
  ⌊secondsToTicksQ segs lastSpt t⌋

/-- Modelled from the spec: the seconds-per-tick of the tempo in effect at
absolute time t, the tolerance unit of the round-trip property. -/
def sptAt : List TempoSeg → Rat → Rat → Rat
  | [], lastSpt, _ => lastSpt
  | g :: rest, lastSpt, t =>
    if t ≤ g.spt * g.len then g.spt else sptAt rest lastSpt (t - g.spt * g.len)

/-- Modelled from the spec: the pair of note-on/note-off events the encoder
emits for one note (section 4.3 step 3), with the channel-independent fields
carried along. -/
structure MidiNoteEvent where
  pitch : Int
  velocity : Int
  instrument : Int
  program : Int
  is_drum : Bool
  startTick : Int
  endTick : Int
deriving Repr, DecidableEq

/-- Modelled from the spec: encoding one note converts startTime and endTime
from seconds to ticks via the tempo map and keeps pitch, velocity, instrument,
program and isDrum. -/
def encodeNote (segs : List TempoSeg) (lastSpt : Rat) (n : SeqNote) : MidiNoteEvent :=
  ⟨n.pitch, n.velocity, n.instrument, n.program, n.is_drum,
   secondsToTicks segs lastSpt n.start_time, secondsToTicks segs lastSpt n.end_time⟩

/-- Modelled from the spec: decoding a note-on/note-off pair converts the tick
positions back to seconds via the same tempo map (section 4.2 step 4). -/
def decodeNote (segs : List TempoSeg) (lastSpt : Rat) (e : MidiNoteEvent) : SeqNote :=
  ⟨e.pitch, ticksToSeconds segs lastSpt e.startTick, ticksToSeconds segs lastSpt e.endTick,
   e.velocity, e.instrument, e.program, e.is_drum⟩

/-- Modelled from the spec: one event of a track's stream, a variable-length
(hence nonnegative) delta-time followed by either a tempo meta-event or any
other event (section 4.2 step 2). -/
inductive TrackEvKind where
  | tempo (qpm : Rat)
  | other
deriving Repr, DecidableEq

/-- Modelled from the spec: a delta-timed track event. -/
structure TrackEv where
  delta : Nat
  kind : TrackEvKind
deriving Repr, DecidableEq

/-- Modelled from the spec: the decoder's single forward scan (section 4.2
steps 2-3): a running tick clock converted to seconds by a monotonic
accumulator; each tempo meta-event records its absolute time and qpm and
updates the seconds-per-tick in effect. -/
def scanTempos (tpq : Rat) : Rat → Rat → List TrackEv → List SeqTempo
  | _, _, [] => []
  | time, spt, e :: rest =>
    match e.kind with
    | TrackEvKind.tempo q =>
        ⟨time + e.delta * spt, q⟩ :: scanTempos tpq (time + e.delta * spt) (60 / (q * tpq)) rest
    | TrackEvKind.other => scanTempos tpq (time + e.delta * spt) spt rest

/-- A left fold of max starting at a is one of a or the list elements. -/
theorem foldl_max_mem (l : List Rat) (a : Rat) : l.foldl max a ∈ a :: l := by
  induction l generalizing a with
  | nil => simp
  | cons c l ih =>
    have h := ih (max a c)
    rw [List.foldl_cons]
    rcases List.mem_cons.mp h with h1 | h1
    · rcases max_choice a c with h2 | h2
      · exact List.mem_cons.mpr (Or.inl (h1.trans h2))
      · exact List.mem_cons.mpr (Or.inr (List.mem_cons.mpr (Or.inl (h1.trans h2))))
    · exact List.mem_cons.mpr (Or.inr (List.mem_cons.mpr (Or.inr h1)))

/-- A left fold of max bounds its seed and every list element from above. -/
theorem le_foldl_max (l : List Rat) (a : Rat) :
    a ≤ l.foldl max a ∧ ∀ x ∈ l, x ≤ l.foldl max a := by
  induction l generalizing a with
  | nil => simp
  | cons c l ih =>
    obtain ⟨h1, h2⟩ := ih (max a c)
    rw [List.foldl_cons]
    refine ⟨le_trans (le_max_left a c) h1, ?_⟩
    intro x hx
    rcases List.mem_cons.mp hx with h3 | h3
    · rw [h3]
      exact le_trans (le_max_right a c) h1
    · exact h2 x h3

/-- C2: the default-filling step inserts the default 120 qpm tempo and the
default 4/4 time signature only when the tempos and timeSignatures keys are
absent; when a key is present its entries are copied with per-field
defaults. -/
theorem c2_defaults (s : ScoreIn) :
    (s.tempos = none → (fillDefaults s).tempos = [⟨0, 120⟩]) ∧
    (s.timeSignatures = none → (fillDefaults s).time_signatures = [⟨0, 4, 4⟩]) ∧
    (∀ l, s.tempos = some l →
      (fillDefaults s).tempos = l.map (fun t => ⟨t.time.getD 0, t.qpm.getD 120⟩)) ∧
    (∀ l, s.timeSignatures = some l →
      (fillDefaults s).time_signatures =
        l.map (fun t => ⟨t.time.getD 0, t.numerator.getD 4, t.denominator.getD 4⟩)) := by
  refine ⟨fun h => ?_, fun h => ?_, fun l h => ?_, fun l h => ?_⟩ <;>
    simp [fillDefaults, buildTempos, buildTimeSigs, h]

/-- C2 witness: concrete instances of the three behaviours. -/
theorem c2_defaults_witness :
    (fillDefaults ⟨[], none, none, none⟩).tempos = [⟨0, 120⟩] ∧
    (fillDefaults ⟨[], none, none, none⟩).time_signatures = [⟨0, 4, 4⟩] ∧
    (fillDefaults ⟨[], some [⟨some 1, some 90⟩], none, none⟩).tempos = [⟨1, 90⟩] :=
  ⟨(c2_defaults ⟨[], none, none, none⟩).1 rfl,
   (c2_defaults ⟨[], none, none, none⟩).2.1 rfl,
   (c2_defaults ⟨[], some [⟨some 1, some 90⟩], none, none⟩).2.2.1 [⟨some 1, some 90⟩] rfl⟩

/-- C2 counterexample: a score whose tempos and timeSignatures keys are
present but hold empty lists gets no default entry at all — the claim says a
single default entry would be inserted whenever the list is empty. -/
theorem c2_counterexample :
    (fillDefaults ⟨[], some [], some [], none⟩).tempos = ([] : List SeqTempo) ∧
    (fillDefaults ⟨[], some [], some [], none⟩).tempos ≠ [⟨0, 120⟩] ∧
    (fillDefaults ⟨[], some [], some [], none⟩).time_signatures = ([] : List SeqTimeSig) ∧
    (fillDefaults ⟨[], some [], some [], none⟩).time_signatures ≠ [⟨0, 4, 4⟩] := by
  refine ⟨rfl, ?_, rfl, ?_⟩ <;> simp [fillDefaults, buildTempos, buildTimeSigs]

/-- C5: absent optional note fields are filled with the documented defaults:
endTime becomes start_time + 0.5, velocity 80, instrument 0, program 0,
isDrum false. -/
theorem c5_note_defaults (n : NoteIn) :
    (n.endTime = none → (fillNote n).end_time = (fillNote n).start_time + 1/2) ∧
    (n.velocity = none → (fillNote n).velocity = 80) ∧
    (n.instrument = none → (fillNote n).instrument = 0) ∧
    (n.program = none → (fillNote n).program = 0) ∧
    (n.isDrum = none → (fillNote n).is_drum = false) := by
  refine ⟨fun h => ?_, fun h => ?_, fun h => ?_, fun h => ?_, fun h => ?_⟩ <;>
    simp [fillNote, h]

/-- C5 witness: the fully absent note receives every default. -/
theorem c5_note_defaults_witness :
    (fillNote ⟨none, none, none, none, none, none, none⟩).end_time =
      (fillNote ⟨none, none, none, none, none, none, none⟩).start_time + 1/2 ∧
    (fillNote ⟨none, none, none, none, none, none, none⟩).velocity = 80 ∧
    (fillNote ⟨none, none, none, none, none, none, none⟩).instrument = 0 ∧
    (fillNote ⟨none, none, none, none, none, none, none⟩).program = 0 ∧
    (fillNote ⟨none, none, none, none, none, none, none⟩).is_drum = false :=
  ⟨(c5_note_defaults ⟨none, none, none, none, none, none, none⟩).1 rfl,
   (c5_note_defaults ⟨none, none, none, none, none, none, none⟩).2.1 rfl,
   (c5_note_defaults ⟨none, none, none, none, none, none, none⟩).2.2.1 rfl,
   (c5_note_defaults ⟨none, none, none, none, none, none, none⟩).2.2.2.1 rfl,
   (c5_note_defaults ⟨none, none, none, none, none, none, none⟩).2.2.2.2 rfl⟩

/-- C10: a note of the encoder's input with no pitch key is not rejected: it
is encoded with the substituted pitch 60, a default the spec does not
state. -/
theorem c10_pitch_default (s : ScoreIn) (n : NoteIn) (hm : n ∈ s.notes)
    (hp : n.pitch = none) :
    (fillNote n).pitch = 60 ∧ fillNote n ∈ (fillDefaults s).notes := by
  constructor
  · simp [fillNote, hp]
  · simp only [fillDefaults]
    exact List.mem_map_of_mem fillNote hm

/-- C10 witness: a concrete pitchless note is encoded with pitch 60. -/
theorem c10_pitch_default_witness :
    (fillNote ⟨none, some 2, some 3, none, none, none, none⟩).pitch = 60 ∧
    fillNote ⟨none, some 2, some 3, none, none, none, none⟩ ∈
      (fillDefaults ⟨[⟨none, some 2, some 3, none, none, none, none⟩], none, none, none⟩).notes :=
  c10_pitch_default ⟨[⟨none, some 2, some 3, none, none, none, none⟩], none, none, none⟩
    ⟨none, some 2, some 3, none, none, none, none⟩ (List.mem_singleton.mpr rfl) rfl

/-- C4: total_time is the provided totalTime when the key is present;
otherwise it is 0 when there are no notes, and with notes it is the maximum
built end_time: a member of the end_time list that bounds every entry. -/
theorem c4_totalTime (s : ScoreIn) :
    (∀ t, s.totalTime = some t → (fillDefaults s).total_time = t) ∧
    (s.totalTime = none → s.notes = [] → (fillDefaults s).total_time = 0) ∧
    (s.totalTime = none → s.notes ≠ [] →
      (fillDefaults s).total_time ∈ (fillDefaults s).notes.map SeqNote.end_time ∧
      ∀ e ∈ (fillDefaults s).notes.map SeqNote.end_time, e ≤ (fillDefaults s).total_time) := by
  refine ⟨fun t h => ?_, fun h h2 => ?_, fun h h2 => ?_⟩
  · simp [fillDefaults, buildTotalTime, h]
  · simp [fillDefaults, buildTotalTime, h, h2]
  · match h3 : s.notes with
    | [] => exact absurd h3 h2
    | n :: rest =>
      have hshape : (fillDefaults s).total_time =
          ((rest.map fillNote).map SeqNote.end_time).foldl max (fillNote n).end_time := by
        simp [fillDefaults, buildTotalTime, h, h3]
      have hlist : (fillDefaults s).notes.map SeqNote.end_time =
          (fillNote n).end_time :: (rest.map fillNote).map SeqNote.end_time := by
        simp [fillDefaults, h3]
      rw [hshape, hlist]
      exact ⟨foldl_max_mem _ _,
        fun e he => by
          rcases List.mem_cons.mp he with h4 | h4
          · exact h4 ▸ (le_foldl_max _ _).1
          · exact (le_foldl_max _ _).2 e h4⟩

/-- C4 witness: concrete instances of the three branches. -/
theorem c4_totalTime_witness :
    (fillDefaults ⟨[], none, none, some 9⟩).total_time = 9 ∧
    (fillDefaults ⟨[], none, none, none⟩).total_time = 0 ∧
    ((fillDefaults ⟨[⟨some 60, some 0, some 4, none, none, none, none⟩,
        ⟨some 62, some 0, some 2, none, none, none, none⟩], none, none, none⟩).total_time ∈
      (fillDefaults ⟨[⟨some 60, some 0, some 4, none, none, none, none⟩,
        ⟨some 62, some 0, some 2, none, none, none, none⟩], none, none, none⟩).notes.map
        SeqNote.end_time ∧
     ∀ e ∈ (fillDefaults ⟨[⟨some 60, some 0, some 4, none, none, none, none⟩,
        ⟨some 62, some 0, some 2, none, none, none, none⟩], none, none, none⟩).notes.map
        SeqNote.end_time,
       e ≤ (fillDefaults ⟨[⟨some 60, some 0, some 4, none, none, none, none⟩,
        ⟨some 62, some 0, some 2, none, none, none, none⟩], none, none, none⟩).total_time) :=
  ⟨(c4_totalTime ⟨[], none, none, some 9⟩).1 9 rfl,
   (c4_totalTime ⟨[], none, none, none⟩).2.1 rfl rfl,
   (c4_totalTime ⟨[⟨some 60, some 0, some 4, none, none, none, none⟩,
      ⟨some 62, some 0, some 2, none, none, none, none⟩], none, none, none⟩).2.2 rfl
     (by simp)⟩

/-- Reading the protobuf back as a dictionary and filling again changes no
note: every key is present, so every dict.get returns the stored value. -/
theorem fillNote_toInput (m : SeqNote) : fillNote (SeqNote.toInput m) = m := rfl

/-- Filling the dictionary reading of a list of protobuf notes reproduces the
list. -/
theorem map_fillNote_toInput (l : List SeqNote) :
    (l.map SeqNote.toInput).map fillNote = l := by
  induction l with
  | nil => rfl
  | cons n rest ih =>
    simp only [List.map_cons]
    rw [ih]
    rfl

/-- Copying the dictionary reading of a list of protobuf tempos reproduces the
list. -/
theorem map_fillTempo_toInput (l : List SeqTempo) :
    buildTempos (some (l.map SeqTempo.toInput)) = l := by
  induction l with
  | nil => rfl
  | cons t rest ih =>
    simp only [buildTempos, List.map_cons] at ih ⊢
    rw [ih]
    rfl

/-- Copying the dictionary reading of a list of protobuf time signatures
reproduces the list. -/
theorem map_fillTimeSig_toInput (l : List SeqTimeSig) :
    buildTimeSigs (some (l.map SeqTimeSig.toInput)) = l := by
  induction l with
  | nil => rfl
  | cons t rest ih =>
    simp only [buildTimeSigs, List.map_cons] at ih ⊢
    rw [ih]
    rfl

/-- Filling the dictionary reading of a fully specified protobuf reproduces
the protobuf: every key is present so every dict.get returns the stored
value. -/
theorem fillDefaults_toInput (y : NoteSeq) : fillDefaults (NoteSeq.toInput y) = y := by
  cases y with
  | mk notes tempos tsigs tt =>
    simp only [fillDefaults, NoteSeq.toInput, buildTotalTime]
    rw [map_fillNote_toInput, map_fillTempo_toInput, map_fillTimeSig_toInput]

/-- C3: the defaulting step is idempotent: filling the dictionary reading of
its own output reproduces that output. -/
theorem c3_fillDefaults_idempotent (s : ScoreIn) :
    fillDefaults (NoteSeq.toInput (fillDefaults s)) = fillDefaults s :=
  fillDefaults_toInput (fillDefaults s)

/-- C6 amended: a decoded note's dictionary carries pitch, startTime, endTime,
velocity, instrument and program unconditionally, but the isDrum key is
written only for percussion notes: it is present (with value true) exactly
when is_drum holds, and absent otherwise. -/
theorem c6_isDrum_key (seq : NoteSeq) :
    (shapeSequence seq).notes = seq.notes.map noteToDict ∧
    (shapeSequence seq).notes.map NoteDict.isDrum =
      seq.notes.map (fun n => if n.is_drum then some true else none) := by
  constructor
  · rfl
  · simp only [shapeSequence, List.map_map]
    rfl

/-- C6 counterexample: decoding a sequence holding one ordinary (non-drum)
note yields a note dictionary with no isDrum key, against the claim that
every decoded note carries one. -/
theorem c6_counterexample :
    midi_to_note_sequence (some ⟨[⟨60, 0, 1, 80, 0, 0, false⟩], [⟨0, 120⟩], [⟨0, 4, 4⟩], 1⟩) =
      some ⟨[⟨60, 0, 1, 80, 0, 0, none⟩], [⟨0, 120⟩], [⟨0, 4, 4⟩], 1⟩ ∧
    (shapeSequence ⟨[⟨60, 0, 1, 80, 0, 0, false⟩], [⟨0, 120⟩], [⟨0, 4, 4⟩], 1⟩).notes.map
      NoteDict.isDrum = [none] :=
  ⟨rfl, rfl⟩

/-- C7: the decoder returns None exactly when the library parse fails, and on
success returns the complete shaped Score, one entry per parsed note, tempo
and time signature — never a partially populated Score. -/
theorem c7_no_partial_score (p : Option NoteSeq) :
    (p = none → midi_to_note_sequence p = none) ∧
    (∀ seq, p = some seq →
      midi_to_note_sequence p = some (shapeSequence seq) ∧
      (shapeSequence seq).notes.length = seq.notes.length ∧
      (shapeSequence seq).tempos.length = seq.tempos.length ∧
      (shapeSequence seq).timeSignatures.length = seq.time_signatures.length) := by
  refine ⟨fun h => ?_, fun seq h => ?_⟩
  · rw [h]
    rfl
  · rw [h]
    exact ⟨rfl, by simp [shapeSequence], by simp [shapeSequence], by simp [shapeSequence]⟩

/-- C7 witness: the failing parse returns None; a concrete successful parse
returns the complete Score. -/
theorem c7_no_partial_score_witness :
    midi_to_note_sequence none = none ∧
    (midi_to_note_sequence (some ⟨[⟨60, 0, 1, 80, 0, 0, false⟩], [⟨0, 120⟩], [], 1⟩) =
      some (shapeSequence ⟨[⟨60, 0, 1, 80, 0, 0, false⟩], [⟨0, 120⟩], [], 1⟩) ∧
     (shapeSequence ⟨[⟨60, 0, 1, 80, 0, 0, false⟩], [⟨0, 120⟩], [], 1⟩).notes.length =
       (⟨[⟨60, 0, 1, 80, 0, 0, false⟩], [⟨0, 120⟩], [], 1⟩ : NoteSeq).notes.length ∧
     (shapeSequence ⟨[⟨60, 0, 1, 80, 0, 0, false⟩], [⟨0, 120⟩], [], 1⟩).tempos.length =
       (⟨[⟨60, 0, 1, 80, 0, 0, false⟩], [⟨0, 120⟩], [], 1⟩ : NoteSeq).tempos.length ∧
     (shapeSequence ⟨[⟨60, 0, 1, 80, 0, 0, false⟩], [⟨0, 120⟩], [], 1⟩).timeSignatures.length =
       (⟨[⟨60, 0, 1, 80, 0, 0, false⟩], [⟨0, 120⟩], [], 1⟩ : NoteSeq).time_signatures.length) :=
  ⟨(c7_no_partial_score none).1 rfl,
   (c7_no_partial_score (some ⟨[⟨60, 0, 1, 80, 0, 0, false⟩], [⟨0, 120⟩], [], 1⟩)).2
     ⟨[⟨60, 0, 1, 80, 0, 0, false⟩], [⟨0, 120⟩], [], 1⟩ rfl⟩

/-- C8 amended: the Score Model performs no validation: a note with
endTime < startTime, a tempo with qpm <= 0 and a time signature with a
non-positive denominator are all passed through unchanged rather than
rejected. -/
theorem c8_no_validation (n : NoteIn) (t : TempoIn) (ts : TimeSigIn) :
    (∀ st e, n.startTime = some st → n.endTime = some e → e < st →
      (fillNote n).start_time = st ∧ (fillNote n).end_time = e) ∧
    (∀ q, t.qpm = some q → q ≤ 0 →
      buildTempos (some [t]) = [⟨t.time.getD 0, q⟩]) ∧
    (∀ d, ts.denominator = some d → d ≤ 0 →
      buildTimeSigs (some [ts]) = [⟨ts.time.getD 0, ts.numerator.getD 4, d⟩]) := by
  refine ⟨fun st e h1 h2 _ => ?_, fun q h1 _ => ?_, fun d h1 _ => ?_⟩
  · exact ⟨by simp [fillNote, h1], by simp [fillNote, h2]⟩
  · simp [buildTempos, h1]
  · simp [buildTimeSigs, h1]

/-- C8 witness: the concrete invalid values survive filling unchanged. -/
theorem c8_no_validation_witness :
    ((fillNote ⟨some 60, some 1, some 0, some 80, some 0, some 0, some false⟩).start_time = 1 ∧
     (fillNote ⟨some 60, some 1, some 0, some 80, some 0, some 0, some false⟩).end_time = 0) ∧
    buildTempos (some [⟨some 0, some (-5)⟩]) = [⟨(some (0:Rat)).getD 0, -5⟩] ∧
    buildTimeSigs (some [⟨some 0, some 4, some 0⟩]) =
      [⟨(some (0:Rat)).getD 0, (some (4:Int)).getD 4, 0⟩] :=
  ⟨(c8_no_validation ⟨some 60, some 1, some 0, some 80, some 0, some 0, some false⟩
      ⟨some 0, some (-5)⟩ ⟨some 0, some 4, some 0⟩).1 1 0 rfl rfl (by norm_num),
   (c8_no_validation ⟨some 60, some 1, some 0, some 80, some 0, some 0, some false⟩
      ⟨some 0, some (-5)⟩ ⟨some 0, some 4, some 0⟩).2.1 (-5) rfl (by norm_num),
   (c8_no_validation ⟨some 60, some 1, some 0, some 80, some 0, some 0, some false⟩
      ⟨some 0, some (-5)⟩ ⟨some 0, some 4, some 0⟩).2.2 0 rfl (by norm_num)⟩

/-- C8 counterexample: the defaulting step accepts, without any error, a score
holding a note with endTime 0 before startTime 1, a tempo with qpm -5 and a
time signature with denominator 0, and passes the invalid values through to
its output — the claim says each of these inputs is rejected. -/
theorem c8_counterexample :
    (fillDefaults ⟨[⟨some 60, some 1, some 0, some 80, some 0, some 0, some false⟩],
        some [⟨some 0, some (-5)⟩], some [⟨some 0, some 4, some 0⟩], some 0⟩).notes =
      [⟨60, 1, 0, 80, 0, 0, false⟩] ∧
    (fillDefaults ⟨[⟨some 60, some 1, some 0, some 80, some 0, some 0, some false⟩],
        some [⟨some 0, some (-5)⟩], some [⟨some 0, some 4, some 0⟩], some 0⟩).tempos =
      [⟨0, -5⟩] ∧
    (fillDefaults ⟨[⟨some 60, some 1, some 0, some 80, some 0, some 0, some false⟩],
        some [⟨some 0, some (-5)⟩], some [⟨some 0, some 4, some 0⟩], some 0⟩).time_signatures =
      [⟨0, 4, 0⟩] ∧
    (0 : Rat) < 1 ∧ (-5 : Rat) ≤ 0 ∧ (0 : Int) ≤ 0 :=
  ⟨rfl, rfl, rfl, by norm_num, by norm_num, by norm_num⟩

/-- The decoder's forward tempo scan only moves time forward: every recorded
tempo time is at least the running time, and the recorded times are pairwise
nondecreasing, as long as every tempo value and the resolution are
positive. -/
theorem scanTempos_bounds (tpq : Rat) (htpq : 0 < tpq) :
    ∀ (evs : List TrackEv) (t0 spt : Rat), 0 < spt →
      (∀ e ∈ evs, ∀ q, e.kind = TrackEvKind.tempo q → 0 < q) →
      (∀ x ∈ scanTempos tpq t0 spt evs, t0 ≤ x.time) ∧
      List.Pairwise (fun a b => SeqTempo.time a ≤ SeqTempo.time b)
        (scanTempos tpq t0 spt evs) := by
  intro evs
  induction evs with
  | nil =>
    intro t0 spt h1 h2
    constructor
    · intro x hx
      simp [scanTempos] at hx
    · simp [scanTempos]
  | cons e rest ih =>
    intro t0 spt hspt hq
    have hdelta : t0 ≤ t0 + e.delta * spt := by
      have h0 : (0 : Rat) ≤ (e.delta : Rat) * spt := by positivity
      linarith
    have hqrest : ∀ e2 ∈ rest, ∀ q2, e2.kind = TrackEvKind.tempo q2 → 0 < q2 :=
      fun e2 he2 q2 hk2 => hq e2 (List.mem_cons_of_mem e he2) q2 hk2
    cases hk : e.kind with
    | tempo q =>
      have hq0 : 0 < q := hq e (List.mem_cons_self e rest) q hk
      have hspt2 : 0 < 60 / (q * tpq) := by positivity
      have hrest := ih (t0 + e.delta * spt) (60 / (q * tpq)) hspt2 hqrest
      constructor
      · intro x hx
        simp only [scanTempos, hk] at hx
        rcases List.mem_cons.mp hx with h | h
        · rw [h]
          exact hdelta
        · exact le_trans hdelta (hrest.1 x h)
      · simp only [scanTempos, hk]
        exact List.pairwise_cons.mpr ⟨fun x hx => hrest.1 x hx, hrest.2⟩
    | other =>
      have hrest := ih (t0 + e.delta * spt) spt hspt hqrest
      constructor
      · intro x hx
        simp only [scanTempos, hk] at hx
        exact le_trans hdelta (hrest.1 x hx)
      · simp only [scanTempos, hk]
        exact hrest.2

/-- C9: a decoded Score's tempos list is sorted by nondecreasing time: the
tempo map is built by a monotone forward scan and midi_to_note_sequence copies
it in order. -/
theorem c9_tempo_monotonicity (tpq t0 spt : Rat) (evs : List TrackEv)
    (h1 : 0 < tpq) (h2 : 0 < spt)
    (h3 : ∀ e ∈ evs, ∀ q, e.kind = TrackEvKind.tempo q → 0 < q) :
    List.Pairwise (fun a b => TempoDict.time a ≤ TempoDict.time b)
      (shapeSequence ⟨[], scanTempos tpq t0 spt evs, [], 0⟩).tempos := by
  have h := (scanTempos_bounds tpq h1 evs t0 spt h2 h3).2
  simp only [shapeSequence]
  rw [List.pairwise_map]
  exact h

/-- C9 witness: a concrete track with a mid-stream tempo change decodes to a
sorted tempo list. -/
theorem c9_tempo_monotonicity_witness :
    List.Pairwise (fun a b => TempoDict.time a ≤ TempoDict.time b)
      (shapeSequence ⟨[], scanTempos 480 0 1
        [⟨0, TrackEvKind.tempo 120⟩, ⟨96, TrackEvKind.other⟩, ⟨5, TrackEvKind.tempo 60⟩],
        [], 0⟩).tempos :=
  c9_tempo_monotonicity 480 0 1
    [⟨0, TrackEvKind.tempo 120⟩, ⟨96, TrackEvKind.other⟩, ⟨5, TrackEvKind.tempo 60⟩]
    (by norm_num) (by norm_num)
    (by
      intro e he q hk
      rcases List.mem_cons.mp he with h | h
      · rw [h] at hk
        injection hk with h2
        rw [← h2]
        norm_num
      · rcases List.mem_cons.mp h with h | h
        · rw [h] at hk
          exact absurd hk (by simp)
        · rw [List.mem_singleton.mp h] at hk
          injection hk with h2
          rw [← h2]
          norm_num)

/-- Quantizing to the floor of a scaled value loses at most one scale unit. -/
theorem floor_scale_abs (a t : Rat) (ha : 0 < a) : |a * (⌊t / a⌋ : Int) - t| ≤ a := by
  have h1 : ((⌊t / a⌋ : Int) : Rat) ≤ t / a := Int.floor_le (t / a)
  have h2 : t / a < (⌊t / a⌋ : Int) + 1 := Int.lt_floor_add_one (t / a)
  have h4 : a * (t / a) = t := by
    field_simp
  have h3 : a * ((⌊t / a⌋ : Int) : Rat) ≤ a * (t / a) := mul_le_mul_of_nonneg_left h1 ha.le
  have h5 : a * (t / a) < a * (((⌊t / a⌋ : Int) : Rat) + 1) := mul_lt_mul_of_pos_left h2 ha
  rw [abs_le]
  constructor <;> nlinarith [h3, h4, h5]

/-- The real-valued tick position of a nonnegative time is nonnegative. -/
theorem secondsToTicksQ_nonneg :
    ∀ (segs : List TempoSeg) (lastSpt : Rat), 0 < lastSpt →
      (∀ g ∈ segs, 0 < g.spt) → ∀ t : Rat, 0 ≤ t →
      0 ≤ secondsToTicksQ segs lastSpt t := by
  intro segs
  induction segs with
  | nil =>
    intro lastSpt hlast _ t ht
    exact div_nonneg ht hlast.le
  | cons g rest ih =>
    intro lastSpt hlast hsegs t ht
    have hg : 0 < g.spt := hsegs g (List.mem_cons_self g rest)
    by_cases hle : t ≤ g.spt * g.len
    · simp only [secondsToTicksQ]
      rw [if_pos hle]
      exact div_nonneg ht hg.le
    · simp only [secondsToTicksQ]
      rw [if_neg hle]
      have hlt : g.spt * g.len < t := lt_of_not_le hle
      have ht2 : 0 ≤ t - g.spt * g.len := by linarith
      have hrec := ih lastSpt hlast
        (fun g2 h => hsegs g2 (List.mem_cons_of_mem g h)) (t - g.spt * g.len) ht2
      positivity

/-- Zero ticks is time zero under any tempo map. -/
theorem ticksToSeconds_zero (segs : List TempoSeg) (lastSpt : Rat) :
    ticksToSeconds segs lastSpt 0 = 0 := by
  cases segs with
  | nil =>
    simp [ticksToSeconds]
  | cons g rest =>
    simp only [ticksToSeconds]
    rw [if_pos (Int.natCast_nonneg g.len)]
    simp

/-- Ticks past the first segment split as the segment's full duration plus the
remainder under the rest of the map. -/
theorem ticksToSeconds_len_add (g : TempoSeg) (rest : List TempoSeg) (lastSpt : Rat)
    (m : Int) (hm : 0 ≤ m) :
    ticksToSeconds (g :: rest) lastSpt ((g.len : Int) + m) =
      g.spt * g.len + ticksToSeconds rest lastSpt m := by
  rcases eq_or_lt_of_le hm with h0 | h0
  · rw [← h0, add_zero, ticksToSeconds_zero, add_zero]
    simp only [ticksToSeconds]
    rw [if_pos (le_refl ((g.len : Int)))]
    push_cast
    ring
  · have hgt : ¬ ((g.len : Int) + m ≤ (g.len : Int)) := by omega
    simp only [ticksToSeconds]
    rw [if_neg hgt, add_sub_cancel_left]

/-- Encoding a nonnegative time to a whole tick and decoding it back lands
within one tick's worth of seconds at the tempo in effect at that time. -/
theorem roundtrip_time :
    ∀ (segs : List TempoSeg) (lastSpt : Rat), 0 < lastSpt →
      (∀ g ∈ segs, 0 < g.spt) → ∀ t : Rat, 0 ≤ t →
      |ticksToSeconds segs lastSpt (secondsToTicks segs lastSpt t) - t| ≤
        sptAt segs lastSpt t := by
  intro segs
  induction segs with
  | nil =>
    intro lastSpt hlast _ t ht
    simp only [secondsToTicks, secondsToTicksQ, ticksToSeconds, sptAt]
    exact floor_scale_abs lastSpt t hlast
  | cons g rest ih =>
    intro lastSpt hlast hsegs t ht
    have hg : 0 < g.spt := hsegs g (List.mem_cons_self g rest)
    have hrestpos : ∀ g2 ∈ rest, 0 < g2.spt :=
      fun g2 h => hsegs g2 (List.mem_cons_of_mem g h)
    by_cases hle : t ≤ g.spt * g.len
    · have hfloor : ⌊t / g.spt⌋ ≤ (g.len : Int) := by
        have hdiv : t / g.spt ≤ ((g.len : Int) : Rat) := by
          rw [div_le_iff₀ hg]
          push_cast
          linarith
        calc ⌊t / g.spt⌋ ≤ ⌊((g.len : Int) : Rat)⌋ := Int.floor_mono hdiv
          _ = (g.len : Int) := Int.floor_intCast (g.len : Int)
      have e1 : secondsToTicks (g :: rest) lastSpt t = ⌊t / g.spt⌋ := by
        simp only [secondsToTicks, secondsToTicksQ]
        rw [if_pos hle]
      have e2 : ticksToSeconds (g :: rest) lastSpt ⌊t / g.spt⌋ = g.spt * (⌊t / g.spt⌋ : Int) := by
        simp only [ticksToSeconds]
        rw [if_pos hfloor]
      have e3 : sptAt (g :: rest) lastSpt t = g.spt := by
        simp only [sptAt]
        rw [if_pos hle]
      rw [e1, e2, e3]
      exact floor_scale_abs g.spt t hg
    · have hlt : g.spt * g.len < t := lt_of_not_le hle
      have ht2 : 0 ≤ t - g.spt * g.len := by linarith
      have hx : 0 ≤ secondsToTicksQ rest lastSpt (t - g.spt * g.len) :=
        secondsToTicksQ_nonneg rest lastSpt hlast hrestpos _ ht2
      have hfl : 0 ≤ ⌊secondsToTicksQ rest lastSpt (t - g.spt * g.len)⌋ :=
        Int.floor_nonneg.mpr hx
      have hcast : ((g.len : Rat)) = (((g.len : Int) : Rat)) := by
        norm_cast
      have e1 : secondsToTicks (g :: rest) lastSpt t =
          (g.len : Int) + ⌊secondsToTicksQ rest lastSpt (t - g.spt * g.len)⌋ := by
        simp only [secondsToTicks, secondsToTicksQ]
        rw [if_neg hle, hcast, Int.floor_int_add]
      have e2 := ticksToSeconds_len_add g rest lastSpt
        ⌊secondsToTicksQ rest lastSpt (t - g.spt * g.len)⌋ hfl
      have e3 : sptAt (g :: rest) lastSpt t = sptAt rest lastSpt (t - g.spt * g.len) := by
        simp only [sptAt]
        rw [if_neg hle]
      rw [e1, e2, e3]
      have hrec := ih lastSpt hlast hrestpos (t - g.spt * g.len) ht2
      have heq : g.spt * g.len + ticksToSeconds rest lastSpt
            ⌊secondsToTicksQ rest lastSpt (t - g.spt * g.len)⌋ - t =
          ticksToSeconds rest lastSpt
            (secondsToTicks rest lastSpt (t - g.spt * g.len)) - (t - g.spt * g.len) := by
        simp only [secondsToTicks]
        ring
      rw [heq]
      exact hrec

/-- C1: encoding a Score note to tick-timed MIDI events and decoding it back
preserves pitch, velocity, instrument, program and isDrum exactly, and
reproduces the start and end times within one tick's worth of seconds at the
tempo in effect at each. -/
theorem c1_note_roundtrip (segs : List TempoSeg) (lastSpt : Rat) (n : SeqNote)
    (h1 : 0 < lastSpt) (h2 : ∀ g ∈ segs, 0 < g.spt)
    (h3 : 0 ≤ n.start_time) (h4 : 0 ≤ n.end_time) :
    (decodeNote segs lastSpt (encodeNote segs lastSpt n)).pitch = n.pitch ∧
    (decodeNote segs lastSpt (encodeNote segs lastSpt n)).velocity = n.velocity ∧
    (decodeNote segs lastSpt (encodeNote segs lastSpt n)).instrument = n.instrument ∧
    (decodeNote segs lastSpt (encodeNote segs lastSpt n)).program = n.program ∧
    (decodeNote segs lastSpt (encodeNote segs lastSpt n)).is_drum = n.is_drum ∧
    |(decodeNote segs lastSpt (encodeNote segs lastSpt n)).start_time - n.start_time| ≤
      sptAt segs lastSpt n.start_time ∧
    |(decodeNote segs lastSpt (encodeNote segs lastSpt n)).end_time - n.end_time| ≤
      sptAt segs lastSpt n.end_time :=
  ⟨rfl, rfl, rfl, rfl, rfl,
   roundtrip_time segs lastSpt h1 h2 n.start_time h3,
   roundtrip_time segs lastSpt h1 h2 n.end_time h4⟩

/-- C1 witness: a concrete two-tempo map and a note whose start lies in the
first tempo segment and whose end lies past it. -/
theorem c1_note_roundtrip_witness :
    (decodeNote [⟨2, 2⟩] 3 (encodeNote [⟨2, 2⟩] 3 ⟨60, 1, 7, 80, 0, 0, false⟩)).pitch = 60 ∧
    (decodeNote [⟨2, 2⟩] 3 (encodeNote [⟨2, 2⟩] 3 ⟨60, 1, 7, 80, 0, 0, false⟩)).velocity = 80 ∧
    (decodeNote [⟨2, 2⟩] 3 (encodeNote [⟨2, 2⟩] 3 ⟨60, 1, 7, 80, 0, 0, false⟩)).instrument = 0 ∧
    (decodeNote [⟨2, 2⟩] 3 (encodeNote [⟨2, 2⟩] 3 ⟨60, 1, 7, 80, 0, 0, false⟩)).program = 0 ∧
    (decodeNote [⟨2, 2⟩] 3 (encodeNote [⟨2, 2⟩] 3 ⟨60, 1, 7, 80, 0, 0, false⟩)).is_drum = false ∧
    |(decodeNote [⟨2, 2⟩] 3 (encodeNote [⟨2, 2⟩] 3 ⟨60, 1, 7, 80, 0, 0, false⟩)).start_time - 1| ≤
      sptAt [⟨2, 2⟩] 3 1 ∧
    |(decodeNote [⟨2, 2⟩] 3 (encodeNote [⟨2, 2⟩] 3 ⟨60, 1, 7, 80, 0, 0, false⟩)).end_time - 7| ≤
      sptAt [⟨2, 2⟩] 3 7 :=
  c1_note_roundtrip [⟨2, 2⟩] 3 ⟨60, 1, 7, 80, 0, 0, false⟩ (by norm_num)
    (by
      intro g hg
      rw [List.mem_singleton.mp hg]
      norm_num)
    (by norm_num) (by norm_num)
